import Mathlib

/-!
# The signal-safe page allocator of `src/alloc.hpp`

A shallow embedding of `sentry::SimplePageAllocator` and
`sentry::SignalSafeAllocator`, and theorems about them.

Conventions of the embedding.

* `size_t` and pointers are natural numbers below `SIZE_MOD = 2 ^ 64`; the
  arithmetic of the source is done with `wadd`, `wsub`, `wmul`, which wrap.
  `nullptr` is the address `0`, `MAP_FAILED` is `(void *) -1`.
* `sizeof(AllocationHeader)` is a parameter `H` of the operations.
* The operating system is an oracle: the value that `mmap` returns, should the
  call be made, is an argument of `alloc`.  Every `mmap` and `munmap` call is
  recorded in `World.syscalls`, newest first.
* Memory is seen only through the headers the allocator writes into it:
  `World.headers` maps the address of a header to its contents, the newest
  write first.
-/

namespace sentry

/-- One more than the largest `size_t`. -/
def SIZE_MOD : Nat := 18446744073709551616

/-- Addition of two `size_t` values. -/
def wadd (a b : Nat) : Nat := (a + b) % SIZE_MOD

/-- Subtraction of two `size_t` values. -/
def wsub (a b : Nat) : Nat := (a + (SIZE_MOD - b % SIZE_MOD)) % SIZE_MOD

/-- Multiplication of two `size_t` values. -/
def wmul (a b : Nat) : Nat := (a * b) % SIZE_MOD

/-- The value `(void *) -1` that a failed `mmap` returns. -/
def MAP_FAILED : Nat := SIZE_MOD - 1

/-- The header `struct AllocationHeader` at the start of every mapped region. -/
structure AllocationHeader where
  next_allocation : Nat
  num_pages : Nat
deriving DecidableEq, Repr

/-- The data members of `class SimplePageAllocator`; pointers are addresses,
`0` is `nullptr`. -/
structure SimplePageAllocator where
  m_page_size : Nat
  m_page_offset : Nat
  m_current_page : Nat
  m_last : Nat
deriving DecidableEq, Repr

/-- A system call made by the allocator: `sys_mmap` with the length asked for
and the value returned, or `sys_munmap` with its two arguments. -/
inductive Syscall where
  | mmap (len result : Nat)
  | munmap (addr len : Nat)
deriving DecidableEq, Repr

/-- What lies outside the allocator object: the headers stored in memory and
the log of system calls, both newest first. -/
structure World where
  headers : List (Nat × AllocationHeader)
  syscalls : List Syscall
deriving DecidableEq, Repr

/-- What `alloc` hands back: the returned pointer, and the allocator and the
world after the call. -/
structure AllocResult where
  ptr : Nat
  self : SimplePageAllocator
  world : World
deriving DecidableEq, Repr

/-- The constructor `SimplePageAllocator()`; the argument is the value of
`getpagesize()`. -/
def SimplePageAllocator.new (pagesize : Nat) : SimplePageAllocator :=
  { m_page_size := pagesize, m_page_offset := 0, m_current_page := 0, m_last := 0 }

/-- A world in which nothing has happened yet. -/
def World.empty : World := { headers := [], syscalls := [] }

/-- Reading `*p` for a header pointer `p`: the newest header written at `p`. -/
def readHeader (w : World) (p : Nat) : Option AllocationHeader :=
  w.headers.lookup p

/-- Lines 52 to 61 of `alloc`, after the test of line 52 succeeded: hand out the
next slice of the current page. -/
def alloc_fast (a : SimplePageAllocator) (w : World) (bytes : Nat) : AllocResult :=
  let rv := wadd a.m_current_page a.m_page_offset
  let off := wadd a.m_page_offset bytes
  if off = a.m_page_size then
    { ptr := rv, self := { a with m_page_offset := 0, m_current_page := 0 }, world := w }
  else
    { ptr := rv, self := { a with m_page_offset := off }, world := w }

/-- The number of pages computed at lines 63 and 64.  For a page size of zero,
where the source divides by zero, the quotient is taken to be zero. -/
def num_pages (H pagesize bytes : Nat) : Nat :=
  wsub (wadd (wadd bytes H) pagesize) 1 / pagesize

/-- Lines 63 to 83 of `alloc`: map a fresh region; `mm` is what `sys_mmap`
returns. -/
def alloc_map (H : Nat) (a : SimplePageAllocator) (w : World) (bytes mm : Nat) :
    AllocResult :=
  let np := num_pages H a.m_page_size bytes
  let w1 : World := { w with syscalls := Syscall.mmap (wmul a.m_page_size np) mm :: w.syscalls }
  if mm = MAP_FAILED then
    { ptr := 0, self := a, world := w1 }
  else
    let w2 : World := { w1 with headers := (mm, { next_allocation := a.m_last, num_pages := np }) :: w1.headers }
    let off := wsub a.m_page_size (wsub (wmul a.m_page_size np) (wadd bytes H)) % a.m_page_size
    let cur := if off ≠ 0 then wadd mm (wmul a.m_page_size (wsub np 1)) else 0
    { ptr := wadd mm H,
      self := { a with m_last := mm, m_page_offset := off, m_current_page := cur },
      world := w2 }

/-- Lines 52 to 83 of `alloc`: what a request does once it is past the guard of
line 48. -/
def alloc_body (H : Nat) (a : SimplePageAllocator) (w : World) (bytes mm : Nat) :
    AllocResult :=
  if a.m_current_page ≠ 0 ∧ wsub a.m_page_size a.m_page_offset ≥ bytes then
    alloc_fast a w bytes
  else
    alloc_map H a w bytes mm

/-- The member function `alloc(size_t bytes)`, lines 47 to 84. -/
def alloc (H : Nat) (a : SimplePageAllocator) (w : World) (bytes mm : Nat) : AllocResult :=
  if bytes ≠ 0 then
    { ptr := 0, self := a, world := w }
  else
    alloc_body H a w bytes mm

/-- The loop of `free_everything`, lines 40 to 43, started at `cur`: each round
reads the header at `cur` and unmaps the region.  The first argument bounds the
number of rounds; `none` stands for a walk that reads an address where no
header was written, or that does not end within the bound. -/
def free_loop (pagesize : Nat) : Nat → World → Nat → Option World
  | 0, w, cur => if cur = 0 then some w else none
  | fuel + 1, w, cur =>
    if cur = 0 then some w
    else
      match readHeader w cur with
      | none => none
      | some h =>
        free_loop pagesize fuel
          { w with syscalls := Syscall.munmap cur (wmul h.num_pages pagesize) :: w.syscalls }
          h.next_allocation

/-- The member function `free_everything()`, lines 38 to 45.  A chain without a
cycle has at most one node per header in memory, which bounds the loop. -/
def free_everything (a : SimplePageAllocator) (w : World) :
    Option (SimplePageAllocator × World) :=
  (free_loop a.m_page_size (w.headers.length + 1) w a.m_last).map
    fun w1 => ({ a with m_last := 0 }, w1)

/-- A run of `alloc` calls, the first of the list first; each call is the number
of bytes asked for and what `sys_mmap` returns if that call reaches it. -/
def alloc_seq (H : Nat) (calls : List (Nat × Nat)) (a : SimplePageAllocator) (w : World) :
    SimplePageAllocator × World :=
  calls.foldl
    (fun s c => ((alloc H s.1 s.2 c.1 c.2).self, (alloc H s.1 s.2 c.1 c.2).world))
    (a, w)

/-- The regions that the logged `mmap` calls mapped, newest first: the base
returned and the length asked for. -/
def mapped_regions : List Syscall → List (Nat × Nat)
  | [] => []
  | Syscall.mmap len result :: cs =>
    if result = MAP_FAILED then mapped_regions cs else (result, len) :: mapped_regions cs
  | Syscall.munmap _ _ :: cs => mapped_regions cs

/-- The base of the newest region that the logged calls mapped, or null. -/
def newest_region (cs : List Syscall) : Nat :=
  match mapped_regions cs with
  | [] => 0
  | r :: _ => r.1

/-- The regions that the logged `munmap` calls named, newest first. -/
def unmapped_regions : List Syscall → List (Nat × Nat)
  | [] => []
  | Syscall.mmap _ _ :: cs => unmapped_regions cs
  | Syscall.munmap addr len :: cs => (addr, len) :: unmapped_regions cs

/-- The chain that starts at the header pointer `cur` runs through exactly the
regions `rs`, newest first: each node is non-null, carries a header in memory,
and the length of its region is the header's page count times the page size;
the chain ends in null. -/
def chain_is (pagesize : Nat) (hs : List (Nat × AllocationHeader)) :
    Nat → List (Nat × Nat) → Prop
  | cur, [] => cur = 0
  | cur, r :: rs =>
    cur = r.1 ∧ cur ≠ 0 ∧
      ∃ h, hs.lookup cur = some h ∧ r.2 = wmul h.num_pages pagesize ∧
        chain_is pagesize hs h.next_allocation rs

/-- A call on the allocator: `alloc(bytes)`, with what `sys_mmap` returns if the
call reaches it, or `free_everything()`. -/
inductive Call where
  | alloc (bytes mm : Nat)
  | free_everything
deriving DecidableEq, Repr

/-- A run of `alloc` and `free_everything` calls, the first of the list first;
`none` when a `free_everything` of the run does not return. -/
def run (H : Nat) : List Call → SimplePageAllocator → World →
    Option (SimplePageAllocator × World)
  | [], a, w => some (a, w)
  | Call.alloc bytes mm :: cs, a, w =>
    run H cs (alloc H a w bytes mm).self (alloc H a w bytes mm).world
  | Call.free_everything :: cs, a, w =>
    match free_everything a w with
    | none => none
    | some s => run H cs s.1 s.2

/-- Whether the byte at `addr` is mapped after the logged calls, newest first:
the newest call that covers `addr` decides, a successful `mmap` mapping it and a
`munmap` unmapping it. -/
def is_mapped : List Syscall → Nat → Bool
  | [], _ => false
  | Syscall.mmap len result :: cs, addr =>
    if result ≠ MAP_FAILED ∧ result ≤ addr ∧ addr < result + len then true
    else is_mapped cs addr
  | Syscall.munmap base len :: cs, addr =>
    if base ≤ addr ∧ addr < base + len then false else is_mapped cs addr

/-- A call into the platform allocator `std::allocator<T>`: `allocate(n)` with
what it returned (`none` when it threw), or `deallocate(p)`. -/
inductive DefaultCall where
  | allocate (n : Nat) (result : Option Nat)
  | deallocate (p : Nat)
deriving DecidableEq, Repr

/-- The process as `SignalSafeAllocator` sees it: the flag that
`is_in_terminating_signal_handler()` reads, the global
`g_simple_page_allocator`, the world, and the calls made into
`m_default_allocator`, newest first. -/
structure Process where
  in_terminating_signal_handler : Bool
  g_simple_page_allocator : SimplePageAllocator
  world : World
  default_calls : List DefaultCall
deriving DecidableEq, Repr

/-- The member function `SignalSafeAllocator<T>::allocate(n)`, lines 103 to 109.
`sizeofT` is `sizeof(T)`, `mm` is what `sys_mmap` returns if it is called and
`dflt` what `m_default_allocator.allocate(n)` returns if it is called (`none`
when it throws, which `allocate` passes on). -/
def SignalSafeAllocator.allocate (H sizeofT : Nat) (p : Process) (n mm : Nat)
    (dflt : Option Nat) : Option Nat × Process :=
  if p.in_terminating_signal_handler then
    let r := alloc H p.g_simple_page_allocator p.world (wmul sizeofT n) mm
    (some r.ptr, { p with g_simple_page_allocator := r.self, world := r.world })
  else
    (dflt, { p with default_calls := DefaultCall.allocate n dflt :: p.default_calls })

/-- The member function `SignalSafeAllocator<T>::deallocate(p, n)`, lines 111 to
117; the size argument is unnamed in the source and unused. -/
def SignalSafeAllocator.deallocate (p : Process) (ptr : Nat) (_n : Nat) : Process :=
  if p.in_terminating_signal_handler then
    p
  else
    { p with default_calls := DefaultCall.deallocate ptr :: p.default_calls }

/-! ## Arithmetic of the page count -/

theorem pages_cover (X P : Nat) (hP : 0 < P) :
    X ≤ (X + P - 1) / P * P ∧ (X + P - 1) / P * P < X + P := by
  have h1 := Nat.div_add_mod (X + P - 1) P
  have h2 := Nat.mod_lt (X + P - 1) hP
  rw [Nat.mul_comm] at h1
  generalize (X + P - 1) / P * P = t at h1 ⊢
  generalize (X + P - 1) % P = r at h1 h2
  omega

theorem pages_least (X P k : Nat) (hP : 0 < P) (hk : X ≤ k * P) :
    (X + P - 1) / P ≤ k := by
  have h : (X + P - 1) / P < k + 1 := by
    rw [Nat.div_lt_iff_lt_mul hP, Nat.add_mul]
    omega
  omega

theorem num_pages_eq (H P bytes : Nat) (hov : bytes + H + P - 1 < SIZE_MOD) (hP : 0 < P) :
    num_pages H P bytes = (bytes + H + P - 1) / P := by
  unfold num_pages wsub wadd
  simp only [SIZE_MOD] at hov ⊢
  have h : ((bytes + H) % 18446744073709551616 + P) % 18446744073709551616 +
      (18446744073709551616 - 1 % 18446744073709551616) =
      bytes + H + P - 1 + 18446744073709551616 ∨
      ((bytes + H) % 18446744073709551616 + P) % 18446744073709551616 +
      (18446744073709551616 - 1 % 18446744073709551616) = bytes + H + P - 1 := by omega
  rcases h with h | h
  · rw [h, Nat.add_mod_right, Nat.mod_eq_of_lt hov]
  · rw [h, Nat.mod_eq_of_lt hov]

theorem wadd_eq (a b : Nat) (h : a + b < SIZE_MOD) : wadd a b = a + b := by
  unfold wadd
  exact Nat.mod_eq_of_lt h

theorem wmul_eq (a b : Nat) (h : a * b < SIZE_MOD) : wmul a b = a * b := by
  unfold wmul
  exact Nat.mod_eq_of_lt h

theorem wsub_eq (a b : Nat) (hb : b ≤ a) (ha : a < SIZE_MOD) : wsub a b = a - b := by
  unfold wsub
  simp only [SIZE_MOD] at ha ⊢
  omega

theorem wmul_comm (a b : Nat) : wmul a b = wmul b a := by
  unfold wmul
  rw [Nat.mul_comm]

/-- The byte count that the mapping path leaves unused at the end of the
region, for a request that does not overflow. -/
theorem map_slack (H P bytes : Nat) (hP : 0 < P) (hov : bytes + H + P - 1 < SIZE_MOD) :
    wsub (wmul P (num_pages H P bytes)) (wadd bytes H) =
      (bytes + H + P - 1) / P * P - (bytes + H) := by
  rw [num_pages_eq H P bytes hov hP]
  obtain ⟨h1, h2⟩ := pages_cover (bytes + H) P hP
  have e0 : bytes + H + P - 1 = bytes + H + P - 1 := rfl
  rw [wmul_eq P _ (by rw [Nat.mul_comm]; omega), wadd_eq bytes H (by omega), Nat.mul_comm P,
    wsub_eq _ _ h1 (by omega)]

theorem map_offset (H P bytes : Nat) (hP : 0 < P) (hov : bytes + H + P - 1 < SIZE_MOD) :
    wsub P (wsub (wmul P (num_pages H P bytes)) (wadd bytes H)) % P = (bytes + H) % P := by
  rw [map_slack H P bytes hP hov]
  obtain ⟨h1, h2⟩ := pages_cover (bytes + H) P hP
  generalize hq : (bytes + H + P - 1) / P = q at h1 h2 ⊢
  rcases Nat.eq_or_lt_of_le h1 with h | h
  · rw [h, Nat.sub_self, Nat.mul_mod_left]
    have e : wsub P 0 = P % SIZE_MOD := by
      unfold wsub
      simp only [SIZE_MOD]
      omega
    rw [e]
    have hle : P ≤ SIZE_MOD := by omega
    rcases Nat.eq_or_lt_of_le hle with h3 | h3
    · rw [h3, Nat.mod_self, Nat.zero_mod]
    · rw [Nat.mod_eq_of_lt h3, Nat.mod_self]
  · cases q with
    | zero => simp at h
    | succ k =>
      rw [Nat.succ_mul] at h h1 h2 ⊢
      have hPM : P < SIZE_MOD := by omega
      rw [wsub_eq P _ (by omega) hPM]
      have e : bytes + H = (P - (k * P + P - (bytes + H))) + k * P := by omega
      rw [Nat.mod_eq_of_lt (by omega)]
      conv_rhs => rw [e, Nat.add_mul_mod_self_right]
      rw [Nat.mod_eq_of_lt (by omega)]

/-! ## The guard of `alloc` -/

/-- The fast path touches nothing outside the allocator object. -/
theorem alloc_fast_world (a : SimplePageAllocator) (w : World) (bytes : Nat) :
    (alloc_fast a w bytes).world = w := by
  unfold alloc_fast
  dsimp only
  split <;> rfl

/-- Whenever `alloc` makes a system call it is on the mapping path: the request
is of zero bytes and the call does what lines 63 to 83 do. -/
theorem alloc_eq_map_of_syscall (H : Nat) (a : SimplePageAllocator) (w : World)
    (bytes mm : Nat) (h : (alloc H a w bytes mm).world.syscalls ≠ w.syscalls) :
    bytes = 0 ∧ alloc H a w bytes mm = alloc_map H a w bytes mm := by
  unfold alloc at h ⊢
  by_cases hb : bytes ≠ 0
  · simp [hb] at h
  · simp only [hb, if_false] at h ⊢
    refine ⟨by omega, ?_⟩
    unfold alloc_body at h ⊢
    split
    · rename_i hc
      rw [if_pos hc, alloc_fast_world] at h
      exact absurd rfl h
    · rfl

/-- The three-request scenario run on lines 52 to 83 alone, with 16-byte
headers: the second pointer is the first plus 2000 and the third request maps
a second region. -/
theorem alloc_body_three_requests :
    let r1 := alloc_body 16 (SimplePageAllocator.new 4096) World.empty 2000 1048576
    let r2 := alloc_body 16 r1.self r1.world 2000 2097152
    let r3 := alloc_body 16 r2.self r2.world 2000 2097152
    r1.ptr = 1048592 ∧ r2.ptr = r1.ptr + 2000 ∧ r2.world = r1.world ∧
      r3.ptr = 2097168 ∧
      r3.world.syscalls = [Syscall.mmap 4096 2097152, Syscall.mmap 4096 1048576] := by
  decide

/-- C1, the code at the scenario's input: on a fresh allocator with page size
4096, a request of 2000 bytes returns null and leaves the allocator and the
world as they were, whatever the header size and whatever `sys_mmap` would
return; so three consecutive requests of 2000 bytes all return null, no region
is mapped, and the allocator is still as constructed. -/
theorem alloc_three_requests_of_2000_return_null (H mm1 mm2 mm3 : Nat) :
    alloc H (SimplePageAllocator.new 4096) World.empty 2000 mm1 =
        { ptr := 0, self := SimplePageAllocator.new 4096, world := World.empty } ∧
      alloc H (alloc H (SimplePageAllocator.new 4096) World.empty 2000 mm1).self
          (alloc H (SimplePageAllocator.new 4096) World.empty 2000 mm1).world 2000 mm2 =
        { ptr := 0, self := SimplePageAllocator.new 4096, world := World.empty } ∧
      alloc H (SimplePageAllocator.new 4096) World.empty 2000 mm3 =
        { ptr := 0, self := SimplePageAllocator.new 4096, world := World.empty } ∧
      alloc_seq H [(2000, mm1), (2000, mm2), (2000, mm3)] (SimplePageAllocator.new 4096)
          World.empty =
        (SimplePageAllocator.new 4096, World.empty) := by
  have h : ∀ mm, alloc H (SimplePageAllocator.new 4096) World.empty 2000 mm =
      { ptr := 0, self := SimplePageAllocator.new 4096, world := World.empty } := by
    intro mm
    simp [alloc]
  refine ⟨h mm1, ?_, h mm3, ?_⟩
  · rw [h mm1]
    exact h mm2
  · simp [alloc_seq, alloc]

/-- C2, the code at a request that fits the current page: a zero-byte request
on a fresh allocator (page size 4096, 16-byte headers, region mapped at
`1048576`) leaves current page `1048576` and offset 16; a request of 2000 bytes
then has `page_size - page_offset >= 2000`, yet `alloc` returns null and leaves
the offset at 16, where lines 53 to 60 would return `1048576 + 16` and move the
offset to 2016. -/
theorem alloc_rejects_request_that_fits (mm : Nat) :
    alloc 16 (SimplePageAllocator.new 4096) World.empty 0 1048576 =
        { ptr := 1048592,
          self :=
            { m_page_size := 4096, m_page_offset := 16, m_current_page := 1048576,
              m_last := 1048576 },
          world :=
            { headers := [(1048576, { next_allocation := 0, num_pages := 1 })],
              syscalls := [Syscall.mmap 4096 1048576] } } ∧
      wsub 4096 16 ≥ 2000 ∧
      alloc 16
          { m_page_size := 4096, m_page_offset := 16, m_current_page := 1048576,
            m_last := 1048576 }
          { headers := [(1048576, { next_allocation := 0, num_pages := 1 })],
            syscalls := [Syscall.mmap 4096 1048576] } 2000 mm =
        { ptr := 0,
          self :=
            { m_page_size := 4096, m_page_offset := 16, m_current_page := 1048576,
              m_last := 1048576 },
          world :=
            { headers := [(1048576, { next_allocation := 0, num_pages := 1 })],
              syscalls := [Syscall.mmap 4096 1048576] } } ∧
      alloc_fast
          { m_page_size := 4096, m_page_offset := 16, m_current_page := 1048576,
            m_last := 1048576 }
          { headers := [(1048576, { next_allocation := 0, num_pages := 1 })],
            syscalls := [Syscall.mmap 4096 1048576] } 2000 =
        { ptr := 1048576 + 16,
          self :=
            { m_page_size := 4096, m_page_offset := 16 + 2000, m_current_page := 1048576,
              m_last := 1048576 },
          world :=
            { headers := [(1048576, { next_allocation := 0, num_pages := 1 })],
              syscalls := [Syscall.mmap 4096 1048576] } } := by
  refine ⟨by decide, by decide, by simp [alloc], by decide⟩

/-- C3: a request is answered with null, with the allocator and the world left
as they were (no region mapped, `m_page_offset`, `m_current_page` and the chain
untouched), in every state, exactly when its byte count is nonzero; a request
of zero bytes runs lines 52 to 83. -/
theorem alloc_returns_null_unchanged_iff_nonzero (H bytes : Nat) :
    ((∀ a w mm, alloc H a w bytes mm = { ptr := 0, self := a, world := w }) ↔ bytes ≠ 0) ∧
      (bytes = 0 ↔ ∀ a w mm, alloc H a w bytes mm = alloc_body H a w bytes mm) := by
  refine ⟨⟨?_, ?_⟩, ⟨?_, ?_⟩⟩
  · intro h hb
    have h1 := h (SimplePageAllocator.new 4096) World.empty 0
    rw [hb] at h1
    have h2 := congrArg (fun r => r.world.syscalls.length) h1
    simp [alloc, alloc_body, alloc_map, SimplePageAllocator.new, World.empty] at h2
    split at h2 <;> simp at h2
  · intro hb a w mm
    simp [alloc, hb]
  · intro hb a w mm
    simp [alloc, hb]
  · intro h
    by_contra hb
    have h1 := h (SimplePageAllocator.new 4096) World.empty 0
    have h2 := congrArg (fun r => r.world.syscalls.length) h1
    simp [alloc, hb, alloc_body, alloc_map, SimplePageAllocator.new, World.empty] at h2
    split at h2 <;> simp at h2

/-! ## The mapping path -/

/-- C4: on the mapping path, for a page size `P > 0` and a request with
`bytes + H + P - 1` below `2 ^ 64`, `sys_mmap` is asked for `n * P` bytes where
`n = (bytes + H + P - 1) / P`; `n` is the least page count with
`n * P >= bytes + H`, so less than one page is left over, and when the mapping
succeeds the header `[mm, mm + H)` and the allocation
`[mm + H, mm + H + bytes)` end inside the region `[mm, mm + n * P)`, a region
that lies below the top of the address space.  A call of
`alloc` that makes a system call is on this path. -/
theorem alloc_map_region_size (H : Nat) (a : SimplePageAllocator) (w : World)
    (bytes mm : Nat) (hP : 0 < a.m_page_size)
    (hov : bytes + H + a.m_page_size - 1 < SIZE_MOD) :
    (alloc_map H a w bytes mm).world.syscalls =
        Syscall.mmap (num_pages H a.m_page_size bytes * a.m_page_size) mm :: w.syscalls ∧
      num_pages H a.m_page_size bytes = (bytes + H + a.m_page_size - 1) / a.m_page_size ∧
      bytes + H ≤ num_pages H a.m_page_size bytes * a.m_page_size ∧
      (∀ k, bytes + H ≤ k * a.m_page_size → num_pages H a.m_page_size bytes ≤ k) ∧
      num_pages H a.m_page_size bytes * a.m_page_size < bytes + H + a.m_page_size ∧
      (mm ≠ MAP_FAILED →
        mm + num_pages H a.m_page_size bytes * a.m_page_size < SIZE_MOD →
        mm + H ≤ (alloc_map H a w bytes mm).ptr ∧
          (alloc_map H a w bytes mm).ptr + bytes ≤
            mm + num_pages H a.m_page_size bytes * a.m_page_size) ∧
      ((alloc H a w bytes mm).world.syscalls ≠ w.syscalls →
        alloc H a w bytes mm = alloc_map H a w bytes mm) := by
  have hn := num_pages_eq H a.m_page_size bytes hov hP
  obtain ⟨h1, h2⟩ := pages_cover (bytes + H) a.m_page_size hP
  rw [← hn] at h1 h2
  have hlen : wmul a.m_page_size (num_pages H a.m_page_size bytes) =
      num_pages H a.m_page_size bytes * a.m_page_size := by
    rw [wmul_eq _ _ (by rw [Nat.mul_comm]; omega), Nat.mul_comm]
  refine ⟨?_, hn, h1, ?_, h2, ?_, fun h => (alloc_eq_map_of_syscall H a w bytes mm h).2⟩
  · unfold alloc_map
    dsimp only
    split <;> simp [hlen]
  · intro k hk
    rw [hn]
    exact pages_least (bytes + H) a.m_page_size k hP hk
  · intro hmm hfit
    have hp : (alloc_map H a w bytes mm).ptr = mm + H := by
      unfold alloc_map
      dsimp only
      rw [if_neg hmm]
      exact wadd_eq mm H (by omega)
    rw [hp]
    omega

/-- Witness of C4: a zero-byte request on a fresh allocator with page size 4096
and 16-byte headers. -/
theorem alloc_map_region_size_witness :
    (alloc_map 16 (SimplePageAllocator.new 4096) World.empty 0 1048576).world.syscalls =
      Syscall.mmap (num_pages 16 4096 0 * 4096) 1048576 :: World.empty.syscalls ∧
    num_pages 16 4096 0 = 1 :=
  ⟨(alloc_map_region_size 16 (SimplePageAllocator.new 4096) World.empty 0 1048576
      (by decide) (by decide)).1, by decide⟩

/-- Lines 63 to 83 alone, for every byte count: when the mapping path maps a
region at `mm` for a request that does not overflow (page size `P > 0`, the
region below the top of the address space), the new `m_page_offset` is
`(bytes + H) mod P`.  If that is nonzero the current page is the last page of
the region, `mm + (n - 1) * P`, and `m_current_page + m_page_offset` is the
returned pointer plus `bytes`, which is the pointer that lines 53 to 60 hand
out next; if it is zero the current page is null.  A call of `alloc` that makes
a system call is on this path. -/
theorem alloc_map_spare_tail (H : Nat) (a : SimplePageAllocator) (w : World)
    (bytes mm : Nat) (hP : 0 < a.m_page_size)
    (hov : bytes + H + a.m_page_size - 1 < SIZE_MOD) (hmm : mm ≠ MAP_FAILED)
    (hfit : mm + num_pages H a.m_page_size bytes * a.m_page_size < SIZE_MOD) :
    (alloc_map H a w bytes mm).self.m_page_offset = (bytes + H) % a.m_page_size ∧
      ((bytes + H) % a.m_page_size ≠ 0 →
        (alloc_map H a w bytes mm).self.m_current_page =
            mm + (num_pages H a.m_page_size bytes - 1) * a.m_page_size ∧
          (alloc_map H a w bytes mm).self.m_current_page + a.m_page_size =
            mm + num_pages H a.m_page_size bytes * a.m_page_size ∧
          (alloc_map H a w bytes mm).self.m_current_page +
              (alloc_map H a w bytes mm).self.m_page_offset =
            (alloc_map H a w bytes mm).ptr + bytes ∧
          ∀ n, (alloc_fast (alloc_map H a w bytes mm).self
              (alloc_map H a w bytes mm).world n).ptr =
            (alloc_map H a w bytes mm).ptr + bytes) ∧
      ((bytes + H) % a.m_page_size = 0 →
        (alloc_map H a w bytes mm).self.m_current_page = 0) ∧
      ((alloc H a w bytes mm).world.syscalls ≠ w.syscalls →
        alloc H a w bytes mm = alloc_map H a w bytes mm) := by
  have hn := num_pages_eq H a.m_page_size bytes hov hP
  obtain ⟨h1, h2⟩ := pages_cover (bytes + H) a.m_page_size hP
  rw [← hn] at h1 h2
  have hoff := map_offset H a.m_page_size bytes hP hov
  have hO : (alloc_map H a w bytes mm).self.m_page_offset = (bytes + H) % a.m_page_size := by
    unfold alloc_map
    dsimp only
    rw [if_neg hmm]
    exact hoff
  have hp : (alloc_map H a w bytes mm).ptr = mm + H := by
    unfold alloc_map
    dsimp only
    rw [if_neg hmm]
    exact wadd_eq mm H (by omega)
  refine ⟨hO, ?_, ?_, fun h => (alloc_eq_map_of_syscall H a w bytes mm h).2⟩
  · intro hne
    have hnp : 1 ≤ num_pages H a.m_page_size bytes := by
      rcases Nat.eq_zero_or_pos (num_pages H a.m_page_size bytes) with h0 | h0
      · rw [h0, Nat.zero_mul] at h1
        have : bytes + H = 0 := by omega
        rw [this, Nat.zero_mod] at hne
        exact absurd rfl hne
      · exact h0
    have hmul : num_pages H a.m_page_size bytes * a.m_page_size =
        (num_pages H a.m_page_size bytes - 1) * a.m_page_size + a.m_page_size := by
      rw [Nat.sub_mul, Nat.one_mul]
      have := Nat.le_mul_of_pos_left a.m_page_size hnp
      omega
    have hC : (alloc_map H a w bytes mm).self.m_current_page =
        mm + (num_pages H a.m_page_size bytes - 1) * a.m_page_size := by
      unfold alloc_map
      dsimp only
      rw [if_neg hmm, hoff, if_pos hne, wsub_eq _ 1 hnp (by
        have := Nat.le_mul_of_pos_right (num_pages H a.m_page_size bytes) hP
        omega)]
      rw [wmul_eq _ _ (by rw [Nat.mul_comm]; omega), Nat.mul_comm a.m_page_size]
      exact wadd_eq _ _ (by omega)
    have hsum : (alloc_map H a w bytes mm).self.m_current_page +
        (alloc_map H a w bytes mm).self.m_page_offset =
        (alloc_map H a w bytes mm).ptr + bytes := by
      rw [hC, hO, hp]
      have hlt := Nat.mod_lt (bytes + H) hP
      have hdm := Nat.div_add_mod (bytes + H) a.m_page_size
      have hq : (bytes + H) / a.m_page_size = num_pages H a.m_page_size bytes - 1 := by
        apply Nat.le_antisymm
        · have : (bytes + H) / a.m_page_size < num_pages H a.m_page_size bytes := by
            rw [Nat.div_lt_iff_lt_mul hP]
            rcases Nat.eq_or_lt_of_le h1 with h | h
            · rw [h, Nat.mul_mod_left] at hne
              exact absurd rfl hne
            · exact h
          omega
        · rw [Nat.le_div_iff_mul_le hP]
          omega
      rw [hq, Nat.mul_comm] at hdm
      omega
    refine ⟨hC, by rw [hC]; omega, hsum, ?_⟩
    intro n
    rw [← hsum]
    have hlt := Nat.mod_lt (bytes + H) hP
    unfold alloc_fast
    dsimp only
    split <;> exact wadd_eq _ _ (by rw [hC, hO]; omega)
  · intro h0
    unfold alloc_map
    dsimp only
    rw [if_neg hmm, hoff]
    simp [h0]

/-- The offset that a zero-byte request leaves on a fresh allocator with page
size 4096 and 16-byte headers, mapped at `1048576`. -/
theorem alloc_map_spare_tail_witness :
    (alloc_map 16 (SimplePageAllocator.new 4096) World.empty 0 1048576).self.m_page_offset =
      (0 + 16) % 4096 :=
  (alloc_map_spare_tail 16 (SimplePageAllocator.new 4096) World.empty 0 1048576
    (by decide) (by decide) (by decide) (by decide)).1

/-! ## What one call of `alloc` does to the chain -/

/-- A call of `alloc` either leaves the chain head, the headers in memory and
the system-call log as they were, or logs a failed `sys_mmap` and changes
nothing else, or maps a region at `mm`, writes its header and makes it the
chain head.  The page size never changes. -/
theorem alloc_cases (H : Nat) (a : SimplePageAllocator) (w : World) (bytes mm : Nat) :
    (alloc H a w bytes mm).self.m_page_size = a.m_page_size ∧
      ((alloc H a w bytes mm).self.m_last = a.m_last ∧ (alloc H a w bytes mm).world = w ∨
        mm = MAP_FAILED ∧ alloc H a w bytes mm =
          { ptr := 0, self := a,
            world :=
              { headers := w.headers,
                syscalls :=
                  Syscall.mmap (wmul a.m_page_size (num_pages H a.m_page_size bytes)) mm ::
                    w.syscalls } } ∨
        mm ≠ MAP_FAILED ∧ (alloc H a w bytes mm).self.m_last = mm ∧
          (alloc H a w bytes mm).world =
            { headers := (mm, { next_allocation := a.m_last,
                                num_pages := num_pages H a.m_page_size bytes }) :: w.headers,
              syscalls :=
                Syscall.mmap (wmul a.m_page_size (num_pages H a.m_page_size bytes)) mm ::
                  w.syscalls }) := by
  unfold alloc
  split
  · exact ⟨rfl, Or.inl ⟨rfl, rfl⟩⟩
  · unfold alloc_body
    split
    · unfold alloc_fast
      dsimp only
      split
      · exact ⟨rfl, Or.inl ⟨rfl, rfl⟩⟩
      · exact ⟨rfl, Or.inl ⟨rfl, rfl⟩⟩
    · unfold alloc_map
      dsimp only
      split
      · rename_i hm
        exact ⟨rfl, Or.inr (Or.inl ⟨hm, rfl⟩)⟩
      · rename_i hm
        exact ⟨rfl, Or.inr (Or.inr ⟨hm, rfl, rfl⟩)⟩

theorem alloc_seq_nil (H : Nat) (a : SimplePageAllocator) (w : World) :
    alloc_seq H [] a w = (a, w) := rfl

theorem alloc_seq_concat (H : Nat) (cs : List (Nat × Nat)) (c : Nat × Nat)
    (a : SimplePageAllocator) (w : World) :
    alloc_seq H (cs ++ [c]) a w =
      ((alloc H (alloc_seq H cs a w).1 (alloc_seq H cs a w).2 c.1 c.2).self,
        (alloc H (alloc_seq H cs a w).1 (alloc_seq H cs a w).2 c.1 c.2).world) := by
  unfold alloc_seq
  rw [List.foldl_append]
  rfl

theorem mapped_regions_failed (len : Nat) (cs : List Syscall) :
    mapped_regions (Syscall.mmap len MAP_FAILED :: cs) = mapped_regions cs := by
  rw [mapped_regions, if_pos rfl]

theorem mapped_regions_mapped (len mm : Nat) (cs : List Syscall) (h : mm ≠ MAP_FAILED) :
    mapped_regions (Syscall.mmap len mm :: cs) = (mm, len) :: mapped_regions cs := by
  rw [mapped_regions, if_neg h]

/-- After any run of `alloc` calls on a fresh allocator, the chain head is the
region mapped last, or null when none was mapped. -/
theorem alloc_seq_last (H P : Nat) (calls : List (Nat × Nat)) :
    (alloc_seq H calls (SimplePageAllocator.new P) World.empty).1.m_last =
      newest_region (alloc_seq H calls (SimplePageAllocator.new P) World.empty).2.syscalls := by
  induction calls using List.reverseRecOn with
  | nil => rfl
  | append_singleton cs c ih =>
    rw [alloc_seq_concat]
    generalize alloc_seq H cs (SimplePageAllocator.new P) World.empty = s at ih ⊢
    obtain ⟨_, h | h | h⟩ := alloc_cases H s.1 s.2 c.1 c.2
    · dsimp only
      rw [h.1, h.2, ih]
    · obtain ⟨hm, he⟩ := h
      dsimp only
      rw [he]
      dsimp only
      rw [ih, hm]
      unfold newest_region
      rw [mapped_regions_failed]
    · obtain ⟨hm, hl, he⟩ := h
      dsimp only
      rw [hl, he]
      unfold newest_region
      dsimp only
      rw [mapped_regions_mapped _ _ _ hm]

/-- C6: a call of `alloc` whose `sys_mmap` fails (the call is made, as the log
shows, and returns `MAP_FAILED`) returns null and leaves the allocator object
as it was: `m_page_offset`, `m_current_page` and `m_last` keep their values, no
header is written and no region is added; the failed call is all that is
logged.  Lines 63 to 70 do so for every byte count. -/
theorem alloc_mmap_failure_leaves_state (H : Nat) (a : SimplePageAllocator) (w : World)
    (bytes : Nat) (h : (alloc H a w bytes MAP_FAILED).world.syscalls ≠ w.syscalls) :
    (alloc H a w bytes MAP_FAILED).ptr = 0 ∧
      (alloc H a w bytes MAP_FAILED).self = a ∧
      (alloc H a w bytes MAP_FAILED).world.headers = w.headers ∧
      (alloc H a w bytes MAP_FAILED).world.syscalls =
        Syscall.mmap (wmul a.m_page_size (num_pages H a.m_page_size bytes)) MAP_FAILED ::
          w.syscalls ∧
      mapped_regions (alloc H a w bytes MAP_FAILED).world.syscalls =
        mapped_regions w.syscalls ∧
      ∀ n, (alloc_map H a w n MAP_FAILED).ptr = 0 ∧ (alloc_map H a w n MAP_FAILED).self = a := by
  have hf : ∀ n, alloc_map H a w n MAP_FAILED =
      { ptr := 0, self := a,
        world :=
          { headers := w.headers,
            syscalls :=
              Syscall.mmap (wmul a.m_page_size (num_pages H a.m_page_size n)) MAP_FAILED ::
                w.syscalls } } := by
    intro n
    unfold alloc_map
    dsimp only
    rw [if_pos rfl]
  rw [(alloc_eq_map_of_syscall H a w bytes MAP_FAILED h).2, hf]
  refine ⟨rfl, rfl, rfl, rfl, mapped_regions_failed _ _, fun n => ?_⟩
  rw [hf]
  exact ⟨rfl, rfl⟩

/-- Witness of C6: a zero-byte request on a fresh allocator whose `sys_mmap`
fails. -/
theorem alloc_mmap_failure_leaves_state_witness :
    (alloc 16 (SimplePageAllocator.new 4096) World.empty 0 MAP_FAILED).ptr = 0 ∧
      (alloc 16 (SimplePageAllocator.new 4096) World.empty 0 MAP_FAILED).self =
        SimplePageAllocator.new 4096 :=
  ⟨(alloc_mmap_failure_leaves_state 16 (SimplePageAllocator.new 4096) World.empty 0
      (by decide)).1,
    (alloc_mmap_failure_leaves_state 16 (SimplePageAllocator.new 4096) World.empty 0
      (by decide)).2.1⟩

/-- C8: when the mapping path maps a region at `mm`, the header read back at
`mm` has `num_pages` equal to the page count of the `sys_mmap` call and
`next_allocation` equal to the chain head before the call; the region becomes
the chain head, and the pointer returned is `mm + H`, past the header
`[mm, mm + H)`.  A call of `alloc` that makes a system call is on this path,
and on an allocator that has only served `alloc` calls since construction the
chain head before the call is the region mapped last, or null. -/
theorem alloc_map_writes_header (H : Nat) (a : SimplePageAllocator) (w : World)
    (bytes mm : Nat) (hmm : mm ≠ MAP_FAILED) :
    readHeader (alloc_map H a w bytes mm).world mm =
        some { next_allocation := a.m_last, num_pages := num_pages H a.m_page_size bytes } ∧
      (alloc_map H a w bytes mm).world.syscalls =
        Syscall.mmap (wmul a.m_page_size (num_pages H a.m_page_size bytes)) mm ::
          w.syscalls ∧
      (alloc_map H a w bytes mm).self.m_last = mm ∧
      (alloc_map H a w bytes mm).ptr = wadd mm H ∧
      (mm + H < SIZE_MOD → (alloc_map H a w bytes mm).ptr = mm + H) ∧
      ((alloc H a w bytes mm).world.syscalls ≠ w.syscalls →
        alloc H a w bytes mm = alloc_map H a w bytes mm) ∧
      ∀ P calls,
        (alloc_seq H calls (SimplePageAllocator.new P) World.empty).1.m_last =
          newest_region
            (alloc_seq H calls (SimplePageAllocator.new P) World.empty).2.syscalls := by
  have hf : alloc_map H a w bytes mm =
      { ptr := wadd mm H,
        self :=
          { a with
            m_last := mm
            m_page_offset :=
              wsub a.m_page_size
                (wsub (wmul a.m_page_size (num_pages H a.m_page_size bytes)) (wadd bytes H)) %
                a.m_page_size
            m_current_page :=
              if wsub a.m_page_size
                  (wsub (wmul a.m_page_size (num_pages H a.m_page_size bytes))
                    (wadd bytes H)) % a.m_page_size ≠ 0
              then wadd mm (wmul a.m_page_size (wsub (num_pages H a.m_page_size bytes) 1))
              else 0 },
        world :=
          { headers := (mm, { next_allocation := a.m_last,
                              num_pages := num_pages H a.m_page_size bytes }) :: w.headers,
            syscalls :=
              Syscall.mmap (wmul a.m_page_size (num_pages H a.m_page_size bytes)) mm ::
                w.syscalls } } := by
    unfold alloc_map
    dsimp only
    rw [if_neg hmm]
  rw [hf]
  refine ⟨?_, rfl, rfl, rfl, fun h => wadd_eq mm H h,
    fun h => ?_, fun P calls => alloc_seq_last H P calls⟩
  · simp [readHeader, List.lookup]
  · rw [(alloc_eq_map_of_syscall H a w bytes mm h).2, hf]

/-- Witness of C8: a zero-byte request on a fresh allocator with page size 4096
and 16-byte headers, mapped at `1048576`. -/
theorem alloc_map_writes_header_witness :
    readHeader (alloc_map 16 (SimplePageAllocator.new 4096) World.empty 0 1048576).world
        1048576 =
      some { next_allocation := 0, num_pages := 1 } :=
  (alloc_map_writes_header 16 (SimplePageAllocator.new 4096) World.empty 0 1048576
    (by decide)).1

/-! ## `SignalSafeAllocator` -/

/-- C9: with the flag set, `allocate(n)` returns the pointer that
`g_simple_page_allocator.alloc(sizeof(T) * n)` returns, leaves the page
allocator and the world as that call leaves them, and makes no call into the
platform allocator; with the flag clear it returns what the platform
allocator's `allocate(n)` returns, makes that one call, and leaves the page
allocator and the world as they were. -/
theorem allocate_selects_by_flag (H sizeofT : Nat) (p : Process) (n mm : Nat)
    (dflt : Option Nat) :
    (p.in_terminating_signal_handler = true →
      (SignalSafeAllocator.allocate H sizeofT p n mm dflt).1 =
          some (alloc H p.g_simple_page_allocator p.world (wmul sizeofT n) mm).ptr ∧
        (SignalSafeAllocator.allocate H sizeofT p n mm dflt).2.g_simple_page_allocator =
          (alloc H p.g_simple_page_allocator p.world (wmul sizeofT n) mm).self ∧
        (SignalSafeAllocator.allocate H sizeofT p n mm dflt).2.world =
          (alloc H p.g_simple_page_allocator p.world (wmul sizeofT n) mm).world ∧
        (SignalSafeAllocator.allocate H sizeofT p n mm dflt).2.default_calls =
          p.default_calls ∧
        (SignalSafeAllocator.allocate H sizeofT p n mm dflt).2.in_terminating_signal_handler =
          true) ∧
      (p.in_terminating_signal_handler = false →
        (SignalSafeAllocator.allocate H sizeofT p n mm dflt).1 = dflt ∧
          (SignalSafeAllocator.allocate H sizeofT p n mm dflt).2 =
            { p with default_calls := DefaultCall.allocate n dflt :: p.default_calls }) := by
  constructor
  · intro h
    simp [SignalSafeAllocator.allocate, h]
  · intro h
    simp [SignalSafeAllocator.allocate, h]

/-- C10: with the flag set, `deallocate(p, n)` changes nothing: the world (so no
`munmap` is logged), the calls made into the platform allocator and the page
allocator's `m_page_offset`, `m_current_page` and chain are what they were. -/
theorem deallocate_in_handler_is_noop (p : Process) (ptr n : Nat)
    (h : p.in_terminating_signal_handler = true) :
    SignalSafeAllocator.deallocate p ptr n = p := by
  simp [SignalSafeAllocator.deallocate, h]

/-! ## `free_everything` -/

theorem chain_is_cons_header (P : Nat) (hs : List (Nat × AllocationHeader)) (b : Nat)
    (hd : AllocationHeader) (rs : List (Nat × Nat)) :
    ∀ cur, chain_is P hs cur rs → (∀ r ∈ rs, r.1 ≠ b) →
      chain_is P ((b, hd) :: hs) cur rs := by
  induction rs with
  | nil => intro cur h _; exact h
  | cons r rs ih =>
    intro cur h hb
    obtain ⟨h1, h2, h3, h4, h5, h6⟩ := h
    have hne : cur ≠ b := by
      rw [h1]
      exact hb r (List.mem_cons_self r rs)
    refine ⟨h1, h2, h3, ?_, h5, ih _ h6 (fun r1 hr1 => hb r1 (List.mem_cons_of_mem r hr1))⟩
    rw [List.lookup_cons]
    have : (cur == b) = false := by simpa using hne
    rw [this]
    exact h4

theorem free_loop_null (P fuel : Nat) (w : World) : free_loop P fuel w 0 = some w := by
  cases fuel <;> simp [free_loop]

theorem free_loop_chain (P : Nat) (rs : List (Nat × Nat)) :
    ∀ (fuel : Nat) (w : World) (cur : Nat), chain_is P w.headers cur rs → rs.length ≤ fuel →
      free_loop P fuel w cur =
        some { headers := w.headers,
               syscalls := (rs.reverse.map fun r => Syscall.munmap r.1 r.2) ++ w.syscalls } := by
  induction rs with
  | nil =>
    intro fuel w cur h _
    rw [h, free_loop_null]
    rfl
  | cons r rs ih =>
    intro fuel w cur h hf
    obtain ⟨h1, h2, h3, h4, h5, h6⟩ := h
    cases fuel with
    | zero => simp at hf
    | succ f =>
      have hr : readHeader w cur = some h3 := h4
      rw [free_loop, if_neg h2, hr]
      dsimp only
      rw [ih f { headers := w.headers,
                 syscalls := Syscall.munmap cur (wmul h3.num_pages P) :: w.syscalls }
        h3.next_allocation h6 (by simpa using hf)]
      simp [h1, h5]

theorem mapped_regions_munmaps (rs : List (Nat × Nat)) (cs : List Syscall) :
    mapped_regions ((rs.map fun r => Syscall.munmap r.1 r.2) ++ cs) = mapped_regions cs := by
  induction rs with
  | nil => rfl
  | cons r rs ih => simpa [mapped_regions] using ih

theorem unmapped_regions_munmaps (rs : List (Nat × Nat)) (cs : List Syscall) :
    unmapped_regions ((rs.map fun r => Syscall.munmap r.1 r.2) ++ cs) =
      rs ++ unmapped_regions cs := by
  induction rs with
  | nil => rfl
  | cons r rs ih => simpa [unmapped_regions] using ih

/-- Every node of a chain carries, in memory, a header whose page count times
the page size is the length of the region. -/
theorem chain_is_headers (P : Nat) (hs : List (Nat × AllocationHeader))
    (rs : List (Nat × Nat)) :
    ∀ cur, chain_is P hs cur rs →
      ∀ r ∈ rs, ∃ h, hs.lookup r.1 = some h ∧ r.2 = wmul h.num_pages P := by
  induction rs with
  | nil => intro cur _ r hr; simp at hr
  | cons r0 rs ih =>
    intro cur h r hr
    obtain ⟨h1, _, h3, h4, h5, h6⟩ := h
    rcases List.mem_cons.mp hr with he | he
    · rw [he, ← h1]
      exact ⟨h3, h4, h5⟩
    · exact ih _ h6 r he

/-- After any run of `alloc` calls on a fresh allocator in which `sys_mmap`
returned non-null, pairwise distinct bases, the chain from `m_last` runs
through exactly the regions mapped, there are at least as many headers in
memory as regions, nothing was unmapped, and the page size is the one the
allocator was constructed with. -/
theorem alloc_seq_chain (H P : Nat) (calls : List (Nat × Nat))
    (hnd : ((mapped_regions
      (alloc_seq H calls (SimplePageAllocator.new P) World.empty).2.syscalls).map
        Prod.fst).Nodup)
    (hnz : ∀ r ∈ mapped_regions
      (alloc_seq H calls (SimplePageAllocator.new P) World.empty).2.syscalls, r.1 ≠ 0) :
    chain_is P (alloc_seq H calls (SimplePageAllocator.new P) World.empty).2.headers
        (alloc_seq H calls (SimplePageAllocator.new P) World.empty).1.m_last
        (mapped_regions (alloc_seq H calls (SimplePageAllocator.new P) World.empty).2.syscalls) ∧
      (mapped_regions
          (alloc_seq H calls (SimplePageAllocator.new P) World.empty).2.syscalls).length ≤
        (alloc_seq H calls (SimplePageAllocator.new P) World.empty).2.headers.length ∧
      unmapped_regions (alloc_seq H calls (SimplePageAllocator.new P) World.empty).2.syscalls =
        [] ∧
      (alloc_seq H calls (SimplePageAllocator.new P) World.empty).1.m_page_size = P := by
  induction calls using List.reverseRecOn with
  | nil => exact ⟨rfl, Nat.le_refl _, rfl, rfl⟩
  | append_singleton cs c ih =>
    rw [alloc_seq_concat] at hnd hnz ⊢
    generalize alloc_seq H cs (SimplePageAllocator.new P) World.empty = s at ih hnd hnz ⊢
    obtain ⟨hps, h | h | h⟩ := alloc_cases H s.1 s.2 c.1 c.2
    · obtain ⟨hl, hw⟩ := h
      dsimp only at hnd hnz ⊢
      rw [hw] at hnd hnz ⊢
      rw [hl, hps]
      exact ih hnd hnz
    · obtain ⟨hm, he⟩ := h
      dsimp only at hnd hnz ⊢
      rw [he] at hnd hnz ⊢
      dsimp only at hnd hnz ⊢
      rw [hm, mapped_regions_failed] at hnd hnz ⊢
      exact ih hnd hnz
    · obtain ⟨hm, hl, hw⟩ := h
      dsimp only at hnd hnz ⊢
      rw [hw] at hnd hnz ⊢
      rw [hl, hps]
      dsimp only at hnd hnz ⊢
      rw [mapped_regions_mapped _ _ _ hm] at hnd hnz ⊢
      rw [List.map_cons, List.nodup_cons] at hnd
      obtain ⟨hfresh, hnd1⟩ := hnd
      obtain ⟨i1, i2, i3, i4⟩ :=
        ih hnd1 (fun r hr => hnz r (List.mem_cons_of_mem _ hr))
      refine ⟨⟨rfl, hnz _ (List.mem_cons_self _ _),
        { next_allocation := s.1.m_last, num_pages := num_pages H s.1.m_page_size c.1 },
        ?_, ?_, ?_⟩, ?_, i3, i4⟩
      · simp [List.lookup]
      · dsimp only
        rw [i4, wmul_comm]
      · refine chain_is_cons_header P _ _ _ _ _ i1 (fun r hr hb => hfresh ?_)
        show c.2 ∈ List.map Prod.fst (mapped_regions s.2.syscalls)
        rw [← hb]
        exact List.mem_map_of_mem Prod.fst hr
      · simpa using i2

/-- C7: after any run of `alloc` calls on a fresh allocator, with `sys_mmap`
returning non-null, pairwise distinct bases, `free_everything` ends, sets
`m_last` to null and makes exactly one `munmap` call per mapped region, newest
region first, each with the region's base and the length it was mapped with,
which is the page count recorded in its header times the page size; it maps
nothing and leaves the headers alone.  Run again right after, it makes no
system call. -/
theorem free_everything_unmaps_every_region (H P : Nat) (calls : List (Nat × Nat))
    (hnd : ((mapped_regions
      (alloc_seq H calls (SimplePageAllocator.new P) World.empty).2.syscalls).map
        Prod.fst).Nodup)
    (hnz : ∀ r ∈ mapped_regions
      (alloc_seq H calls (SimplePageAllocator.new P) World.empty).2.syscalls, r.1 ≠ 0) :
    ∃ a1 w1,
      free_everything (alloc_seq H calls (SimplePageAllocator.new P) World.empty).1
          (alloc_seq H calls (SimplePageAllocator.new P) World.empty).2 = some (a1, w1) ∧
        a1 = { (alloc_seq H calls (SimplePageAllocator.new P) World.empty).1 with m_last := 0 } ∧
        w1.headers = (alloc_seq H calls (SimplePageAllocator.new P) World.empty).2.headers ∧
        w1.syscalls =
          ((mapped_regions
              (alloc_seq H calls (SimplePageAllocator.new P) World.empty).2.syscalls).reverse.map
            fun r => Syscall.munmap r.1 r.2) ++
            (alloc_seq H calls (SimplePageAllocator.new P) World.empty).2.syscalls ∧
        unmapped_regions w1.syscalls =
          (mapped_regions
            (alloc_seq H calls (SimplePageAllocator.new P) World.empty).2.syscalls).reverse ∧
        mapped_regions w1.syscalls =
          mapped_regions
            (alloc_seq H calls (SimplePageAllocator.new P) World.empty).2.syscalls ∧
        (∀ r ∈ mapped_regions
            (alloc_seq H calls (SimplePageAllocator.new P) World.empty).2.syscalls,
          ∃ h, readHeader (alloc_seq H calls (SimplePageAllocator.new P) World.empty).2 r.1 =
              some h ∧ r.2 = wmul h.num_pages P) ∧
        free_everything a1 w1 = some (a1, w1) := by
  obtain ⟨i1, i2, i3, i4⟩ := alloc_seq_chain H P calls hnd hnz
  generalize alloc_seq H calls (SimplePageAllocator.new P) World.empty = s at i1 i2 i3 i4 ⊢
  have hloop := free_loop_chain s.1.m_page_size (mapped_regions s.2.syscalls)
    (s.2.headers.length + 1) s.2 s.1.m_last (by rw [i4]; exact i1) (by omega)
  refine ⟨{ s.1 with m_last := 0 },
    { headers := s.2.headers,
      syscalls := ((mapped_regions s.2.syscalls).reverse.map fun r => Syscall.munmap r.1 r.2) ++
        s.2.syscalls },
    ?_, rfl, ?_, ?_, ?_, ?_, ?_, ?_⟩
  · unfold free_everything
    rw [hloop]
    rfl
  · rfl
  · rfl
  · dsimp only
    rw [unmapped_regions_munmaps, i3, List.append_nil]
  · dsimp only
    rw [mapped_regions_munmaps]
  · exact chain_is_headers P _ _ _ i1
  · unfold free_everything
    dsimp only
    rw [free_loop_null]
    rfl

/-- Witness of C7: two zero-byte requests on a fresh allocator whose page size
equals the header size, 16, so that each request maps a region of its own. -/
theorem free_everything_unmaps_every_region_witness :
    ∃ a1 w1,
      free_everything (alloc_seq 16 [(0, 4096), (0, 8192)] (SimplePageAllocator.new 16)
          World.empty).1
        (alloc_seq 16 [(0, 4096), (0, 8192)] (SimplePageAllocator.new 16) World.empty).2 =
          some (a1, w1) ∧
        unmapped_regions w1.syscalls = [(4096, 16), (8192, 16)] := by
  obtain ⟨a1, w1, h1, _, _, _, h5, _⟩ :=
    free_everything_unmaps_every_region 16 16 [(0, 4096), (0, 8192)] (by decide) (by decide)
  exact ⟨a1, w1, h1, h5⟩

/-- Witness of C10: a process inside the handler. -/
theorem deallocate_in_handler_is_noop_witness :
    SignalSafeAllocator.deallocate
        { in_terminating_signal_handler := true,
          g_simple_page_allocator := SimplePageAllocator.new 4096,
          world := World.empty, default_calls := [] } 1048592 8 =
      { in_terminating_signal_handler := true,
        g_simple_page_allocator := SimplePageAllocator.new 4096,
        world := World.empty, default_calls := [] } :=
  deallocate_in_handler_is_noop _ 1048592 8 rfl

/-- Witness of C9: inside the handler a request for 8 objects of 4 bytes goes
to the page allocator, which returns null for it. -/
theorem allocate_selects_by_flag_witness :
    (SignalSafeAllocator.allocate 16 4
        { in_terminating_signal_handler := true,
          g_simple_page_allocator := SimplePageAllocator.new 4096,
          world := World.empty, default_calls := [] } 8 1048576 (some 77)).1 =
      some (alloc 16 (SimplePageAllocator.new 4096) World.empty (wmul 4 8) 1048576).ptr :=
  ((allocate_selects_by_flag 16 4
      { in_terminating_signal_handler := true,
        g_simple_page_allocator := SimplePageAllocator.new 4096,
        world := World.empty, default_calls := [] } 8 1048576 (some 77)).1 rfl).1

/-! ## The current page and its offset -/

theorem alloc_page_size (H : Nat) (a : SimplePageAllocator) (w : World) (bytes mm : Nat) :
    (alloc H a w bytes mm).self.m_page_size = a.m_page_size :=
  (alloc_cases H a w bytes mm).1

theorem alloc_seq_page_size (H : Nat) (calls : List (Nat × Nat)) (a : SimplePageAllocator)
    (w : World) : (alloc_seq H calls a w).1.m_page_size = a.m_page_size := by
  induction calls using List.reverseRecOn with
  | nil => rfl
  | append_singleton cs c ih =>
    rw [alloc_seq_concat]
    dsimp only
    rw [alloc_page_size, ih]

/-- A call of `alloc` keeps every region that was mapped before it. -/
theorem alloc_regions_subset (H : Nat) (a : SimplePageAllocator) (w : World)
    (bytes mm : Nat) (r : Nat × Nat) (hr : r ∈ mapped_regions w.syscalls) :
    r ∈ mapped_regions (alloc H a w bytes mm).world.syscalls := by
  obtain ⟨_, h | h | h⟩ := alloc_cases H a w bytes mm
  · rw [h.2]
    exact hr
  · obtain ⟨hm, he⟩ := h
    rw [he]
    dsimp only
    rw [hm, mapped_regions_failed]
    exact hr
  · obtain ⟨hm, _, he⟩ := h
    rw [he]
    dsimp only
    rw [mapped_regions_mapped _ _ _ hm]
    exact List.mem_cons_of_mem _ hr

/-- A call of `alloc` on an allocator whose offset is below the page size
leaves the offset below the page size. -/
theorem alloc_offset_lt (H : Nat) (a : SimplePageAllocator) (w : World) (bytes mm : Nat)
    (hP : 0 < a.m_page_size) (h : a.m_page_offset < a.m_page_size) :
    (alloc H a w bytes mm).self.m_page_offset < a.m_page_size := by
  unfold alloc
  split
  · exact h
  · rename_i hb
    have hb0 : bytes = 0 := by omega
    subst hb0
    unfold alloc_body
    split
    · unfold alloc_fast
      dsimp only
      split
      · exact hP
      · dsimp only
        unfold wadd
        exact Nat.lt_of_le_of_lt (Nat.mod_le _ _) h
    · unfold alloc_map
      dsimp only
      split
      · exact h
      · exact Nat.mod_lt _ hP

/-- On the mapping path, for a request that does not overflow and leaves a
spare tail, in a region that ends inside the address space: at least one page
is mapped, the length is the page count times the page size, and the current
page computed at line 81 is the last page of the region. -/
theorem map_current_page (H P bytes mm : Nat) (hP : 0 < P)
    (hov : bytes + H + P - 1 < SIZE_MOD) (hne : (bytes + H) % P ≠ 0)
    (hfit : mm + wmul P (num_pages H P bytes) ≤ SIZE_MOD) :
    1 ≤ num_pages H P bytes ∧
      wmul P (num_pages H P bytes) = num_pages H P bytes * P ∧
      wadd mm (wmul P (wsub (num_pages H P bytes) 1)) =
        mm + (num_pages H P bytes - 1) * P := by
  have hn := num_pages_eq H P bytes hov hP
  obtain ⟨h1, h2⟩ := pages_cover (bytes + H) P hP
  rw [← hn] at h1 h2
  have hlen : wmul P (num_pages H P bytes) = num_pages H P bytes * P := by
    rw [wmul_eq _ _ (by rw [Nat.mul_comm]; omega), Nat.mul_comm]
  rw [hlen] at hfit
  have hnp : 1 ≤ num_pages H P bytes := by
    rcases Nat.eq_zero_or_pos (num_pages H P bytes) with h0 | h0
    · rw [h0, Nat.zero_mul] at h1
      have : bytes + H = 0 := by omega
      rw [this, Nat.zero_mod] at hne
      exact absurd rfl hne
    · exact h0
  have hmul : num_pages H P bytes * P = (num_pages H P bytes - 1) * P + P := by
    rw [Nat.sub_mul, Nat.one_mul]
    have := Nat.le_mul_of_pos_left P hnp
    omega
  refine ⟨hnp, hlen, ?_⟩
  rw [wsub_eq _ 1 hnp (by
    have := Nat.le_mul_of_pos_right (num_pages H P bytes) hP
    omega)]
  rw [wmul_eq _ _ (by rw [Nat.mul_comm]; omega), Nat.mul_comm P]
  exact wadd_eq _ _ (by omega)

/-- A call of `alloc` keeps "the current page is null exactly when the offset is
zero", provided a region that the call maps has a non-null base and ends inside
the address space. -/
theorem alloc_null_iff (H : Nat) (a : SimplePageAllocator) (w : World) (bytes mm : Nat)
    (hP : 0 < a.m_page_size) (hov : H + a.m_page_size - 1 < SIZE_MOD)
    (hlt : a.m_page_offset < a.m_page_size)
    (hinv : a.m_current_page = 0 ↔ a.m_page_offset = 0)
    (hos : mm ≠ MAP_FAILED →
      (alloc H a w bytes mm).world.syscalls =
        Syscall.mmap (wmul a.m_page_size (num_pages H a.m_page_size bytes)) mm ::
          w.syscalls →
      mm ≠ 0 ∧ mm + wmul a.m_page_size (num_pages H a.m_page_size bytes) ≤ SIZE_MOD) :
    (alloc H a w bytes mm).self.m_current_page = 0 ↔
      (alloc H a w bytes mm).self.m_page_offset = 0 := by
  unfold alloc at hos ⊢
  by_cases hb : bytes ≠ 0
  · rw [if_pos hb]
    exact hinv
  · rw [if_neg hb] at hos ⊢
    have hb0 : bytes = 0 := by omega
    subst hb0
    unfold alloc_body at hos ⊢
    by_cases hc : a.m_current_page ≠ 0 ∧ wsub a.m_page_size a.m_page_offset ≥ 0
    · rw [if_pos hc]
      have hoff : wadd a.m_page_offset 0 = a.m_page_offset := wadd_eq _ _ (by omega)
      unfold alloc_fast
      dsimp only
      rw [hoff, if_neg (by omega)]
      exact hinv
    · rw [if_neg hc] at hos ⊢
      by_cases hm : mm = MAP_FAILED
      · unfold alloc_map
        dsimp only
        rw [if_pos hm]
        exact hinv
      · have hw : (alloc_map H a w 0 mm).world.syscalls =
            Syscall.mmap (wmul a.m_page_size (num_pages H a.m_page_size 0)) mm ::
              w.syscalls := by
          unfold alloc_map
          dsimp only
          rw [if_neg hm]
        obtain ⟨hnz, hfit⟩ := hos hm hw
        have hoff := map_offset H a.m_page_size 0 hP (by omega)
        unfold alloc_map
        dsimp only
        rw [if_neg hm]
        dsimp only
        rw [hoff]
        by_cases h0 : (0 + H) % a.m_page_size = 0
        · rw [h0]
          simp
        · rw [if_pos h0]
          obtain ⟨_, _, hcur⟩ := map_current_page H a.m_page_size 0 mm hP (by omega) h0 hfit
          rw [hcur]
          constructor
          · intro h
            omega
          · intro h
            exact absurd h h0

/-- After any run of `alloc` calls on a fresh allocator with a positive page
size the offset is below the page size. -/
theorem alloc_seq_offset_lt (H P : Nat) (calls : List (Nat × Nat)) (hP : 0 < P) :
    (alloc_seq H calls (SimplePageAllocator.new P) World.empty).1.m_page_offset < P := by
  induction calls using List.reverseRecOn with
  | nil => exact hP
  | append_singleton cs c ih =>
    rw [alloc_seq_concat]
    have hps := alloc_seq_page_size H cs (SimplePageAllocator.new P) World.empty
    have hps1 : (SimplePageAllocator.new P).m_page_size = P := rfl
    rw [hps1] at hps
    have := alloc_offset_lt H
      (alloc_seq H cs (SimplePageAllocator.new P) World.empty).1
      (alloc_seq H cs (SimplePageAllocator.new P) World.empty).2 c.1 c.2
      (by rw [hps]; exact hP) (by rw [hps]; exact ih)
    rw [hps] at this
    exact this

/-- After any run of `alloc` calls on a fresh allocator, with a positive page
size, `H + P - 1` below `2 ^ 64` and every mapped region non-null and inside
the address space, the current page is null exactly when the offset is zero. -/
theorem alloc_seq_null_iff (H P : Nat) (calls : List (Nat × Nat)) (hP : 0 < P)
    (hov : H + P - 1 < SIZE_MOD)
    (hos : ∀ r ∈ mapped_regions
      (alloc_seq H calls (SimplePageAllocator.new P) World.empty).2.syscalls,
      r.1 ≠ 0 ∧ r.1 + r.2 ≤ SIZE_MOD) :
    (alloc_seq H calls (SimplePageAllocator.new P) World.empty).1.m_current_page = 0 ↔
      (alloc_seq H calls (SimplePageAllocator.new P) World.empty).1.m_page_offset = 0 := by
  induction calls using List.reverseRecOn with
  | nil => exact ⟨fun _ => rfl, fun _ => rfl⟩
  | append_singleton cs c ih =>
    have hlt := alloc_seq_offset_lt H P cs hP
    have hps := alloc_seq_page_size H cs (SimplePageAllocator.new P) World.empty
    have hps1 : (SimplePageAllocator.new P).m_page_size = P := rfl
    rw [hps1] at hps
    rw [alloc_seq_concat] at hos ⊢
    generalize alloc_seq H cs (SimplePageAllocator.new P) World.empty = s at ih hos hlt hps ⊢
    dsimp only at hos ⊢
    have ih1 := ih (fun r hr => hos r (alloc_regions_subset H s.1 s.2 c.1 c.2 r hr))
    refine alloc_null_iff H s.1 s.2 c.1 c.2 (by rw [hps]; exact hP) (by rw [hps]; exact hov)
      (by rw [hps]; exact hlt) ih1 ?_
    intro hm hw
    have hmem := hos (c.2, wmul s.1.m_page_size (num_pages H s.1.m_page_size c.1)) (by
      rw [hw, mapped_regions_mapped _ _ _ hm]
      exact List.mem_cons_self _ _)
    exact hmem

/-- C12: for a page size `P > 0`, after any run of `alloc` calls on a fresh
allocator, whatever `sys_mmap` returned, `m_page_offset < P`; and when
`H + P - 1` is below `2 ^ 64` and every region that `sys_mmap` returned has a
non-null base and ends inside the address space, the current page is null if
and only if `m_page_offset` is zero. -/
theorem alloc_seq_offset_invariant (H P : Nat) (calls : List (Nat × Nat)) (hP : 0 < P) :
    (alloc_seq H calls (SimplePageAllocator.new P) World.empty).1.m_page_offset < P ∧
      (H + P - 1 < SIZE_MOD →
        (∀ r ∈ mapped_regions
            (alloc_seq H calls (SimplePageAllocator.new P) World.empty).2.syscalls,
          r.1 ≠ 0 ∧ r.1 + r.2 ≤ SIZE_MOD) →
        ((alloc_seq H calls (SimplePageAllocator.new P) World.empty).1.m_current_page = 0 ↔
          (alloc_seq H calls (SimplePageAllocator.new P) World.empty).1.m_page_offset = 0)) :=
  ⟨alloc_seq_offset_lt H P calls hP, fun hov hos => alloc_seq_null_iff H P calls hP hov hos⟩

/-- Witness of C12: page size 4096, 16-byte headers, a zero-byte request mapped
at `1048576`, a second zero-byte request and a request of five bytes. -/
theorem alloc_seq_offset_invariant_witness :
    (alloc_seq 16 [(0, 1048576), (0, 7), (5, 9)] (SimplePageAllocator.new 4096)
        World.empty).1.m_page_offset < 4096 ∧
      ((alloc_seq 16 [(0, 1048576), (0, 7), (5, 9)] (SimplePageAllocator.new 4096)
          World.empty).1.m_current_page = 0 ↔
        (alloc_seq 16 [(0, 1048576), (0, 7), (5, 9)] (SimplePageAllocator.new 4096)
          World.empty).1.m_page_offset = 0) :=
  ⟨(alloc_seq_offset_invariant 16 4096 [(0, 1048576), (0, 7), (5, 9)] (by decide)).1,
    (alloc_seq_offset_invariant 16 4096 [(0, 1048576), (0, 7), (5, 9)] (by decide)).2
      (by decide) (by decide)⟩

/-! ## The current page after `free_everything` -/

theorem is_mapped_failed (len : Nat) (cs : List Syscall) (x : Nat) :
    is_mapped (Syscall.mmap len MAP_FAILED :: cs) x = is_mapped cs x := by
  rw [is_mapped, if_neg (fun h => h.1 rfl)]

theorem is_mapped_inside (len mm : Nat) (cs : List Syscall) (x : Nat) (hm : mm ≠ MAP_FAILED)
    (h1 : mm ≤ x) (h2 : x < mm + len) : is_mapped (Syscall.mmap len mm :: cs) x = true := by
  rw [is_mapped, if_pos ⟨hm, h1, h2⟩]

/-- A call of `alloc` keeps "the whole of a non-null current page is mapped",
provided a region that the call maps ends inside the address space. -/
theorem alloc_current_page_mapped (H : Nat) (a : SimplePageAllocator) (w : World)
    (bytes mm : Nat) (hP : 0 < a.m_page_size) (hov : H + a.m_page_size - 1 < SIZE_MOD)
    (hlt : a.m_page_offset < a.m_page_size)
    (hinv : a.m_current_page ≠ 0 → ∀ x, a.m_current_page ≤ x →
      x < a.m_current_page + a.m_page_size → is_mapped w.syscalls x = true)
    (hos : mm ≠ MAP_FAILED →
      (alloc H a w bytes mm).world.syscalls =
        Syscall.mmap (wmul a.m_page_size (num_pages H a.m_page_size bytes)) mm ::
          w.syscalls →
      mm ≠ 0 ∧ mm + wmul a.m_page_size (num_pages H a.m_page_size bytes) ≤ SIZE_MOD) :
    (alloc H a w bytes mm).self.m_current_page ≠ 0 →
      ∀ x, (alloc H a w bytes mm).self.m_current_page ≤ x →
        x < (alloc H a w bytes mm).self.m_current_page + a.m_page_size →
        is_mapped (alloc H a w bytes mm).world.syscalls x = true := by
  unfold alloc at hos ⊢
  by_cases hb : bytes ≠ 0
  · rw [if_pos hb]
    exact hinv
  · rw [if_neg hb] at hos ⊢
    have hb0 : bytes = 0 := by omega
    subst hb0
    unfold alloc_body at hos ⊢
    by_cases hc : a.m_current_page ≠ 0 ∧ wsub a.m_page_size a.m_page_offset ≥ 0
    · rw [if_pos hc]
      have hoff : wadd a.m_page_offset 0 = a.m_page_offset := wadd_eq _ _ (by omega)
      unfold alloc_fast
      dsimp only
      rw [hoff, if_neg (by omega)]
      exact hinv
    · rw [if_neg hc] at hos ⊢
      by_cases hm : mm = MAP_FAILED
      · unfold alloc_map
        dsimp only
        rw [if_pos hm]
        dsimp only
        intro h x hx1 hx2
        rw [hm, is_mapped_failed]
        exact hinv h x hx1 hx2
      · have hw : (alloc_map H a w 0 mm).world.syscalls =
            Syscall.mmap (wmul a.m_page_size (num_pages H a.m_page_size 0)) mm ::
              w.syscalls := by
          unfold alloc_map
          dsimp only
          rw [if_neg hm]
        obtain ⟨_, hfit⟩ := hos hm hw
        have hoff := map_offset H a.m_page_size 0 hP (by omega)
        unfold alloc_map
        dsimp only
        rw [if_neg hm]
        dsimp only
        rw [hoff]
        by_cases h0 : (0 + H) % a.m_page_size = 0
        · rw [h0]
          intro h
          simp at h
        · rw [if_pos h0]
          obtain ⟨hnp, hlen, hcur⟩ :=
            map_current_page H a.m_page_size 0 mm hP (by omega) h0 hfit
          rw [hcur, hlen]
          intro _ x hx1 hx2
          have hmul : num_pages H a.m_page_size 0 * a.m_page_size =
              (num_pages H a.m_page_size 0 - 1) * a.m_page_size + a.m_page_size := by
            rw [Nat.sub_mul, Nat.one_mul]
            have := Nat.le_mul_of_pos_left a.m_page_size hnp
            omega
          exact is_mapped_inside _ _ _ _ hm (by omega) (by omega)

/-- After any run of `alloc` calls alone on a fresh allocator, with a positive
page size, `H + P - 1` below `2 ^ 64` and every mapped region non-null and
inside the address space, the whole of a non-null current page is mapped. -/
theorem alloc_seq_current_page_mapped (H P : Nat) (calls : List (Nat × Nat)) (hP : 0 < P)
    (hov : H + P - 1 < SIZE_MOD)
    (hos : ∀ r ∈ mapped_regions
      (alloc_seq H calls (SimplePageAllocator.new P) World.empty).2.syscalls,
      r.1 ≠ 0 ∧ r.1 + r.2 ≤ SIZE_MOD) :
    (alloc_seq H calls (SimplePageAllocator.new P) World.empty).1.m_current_page ≠ 0 →
      ∀ x, (alloc_seq H calls (SimplePageAllocator.new P) World.empty).1.m_current_page ≤ x →
        x < (alloc_seq H calls (SimplePageAllocator.new P) World.empty).1.m_current_page + P →
        is_mapped (alloc_seq H calls (SimplePageAllocator.new P) World.empty).2.syscalls x =
          true := by
  induction calls using List.reverseRecOn with
  | nil => intro h; exact absurd rfl h
  | append_singleton cs c ih =>
    have hlt := alloc_seq_offset_lt H P cs hP
    have hps := alloc_seq_page_size H cs (SimplePageAllocator.new P) World.empty
    have hps1 : (SimplePageAllocator.new P).m_page_size = P := rfl
    rw [hps1] at hps
    rw [alloc_seq_concat] at hos ⊢
    generalize alloc_seq H cs (SimplePageAllocator.new P) World.empty = s at ih hos hlt hps ⊢
    dsimp only at hos ⊢
    have ih1 := ih (fun r hr => hos r (alloc_regions_subset H s.1 s.2 c.1 c.2 r hr))
    have key := alloc_current_page_mapped H s.1 s.2 c.1 c.2 (by rw [hps]; exact hP)
      (by rw [hps]; exact hov) (by rw [hps]; exact hlt) (by rw [hps]; exact ih1) (by
        intro hm hw
        exact hos (c.2, wmul s.1.m_page_size (num_pages H s.1.m_page_size c.1)) (by
          rw [hw, mapped_regions_mapped _ _ _ hm]
          exact List.mem_cons_self _ _))
    rw [hps] at key
    exact key

/-- C11, the code at `alloc(0)`, `free_everything()`, `alloc(0)` on a fresh
allocator with page size 4096 and 16-byte headers, the region mapped at
`1048576`: after `free_everything` the region is unmapped and `m_last` is null,
but `m_current_page` is still `1048576` and `m_page_offset` still 16, so the
current page is non-null and not mapped; the next `alloc(0)` makes no system
call and returns `1048592`, a non-null pointer into memory that is not
mapped. -/
theorem alloc_after_free_everything_returns_unmapped (mm : Nat) :
    run 16 [Call.alloc 0 1048576, Call.free_everything] (SimplePageAllocator.new 4096)
        World.empty =
      some
        ({ m_page_size := 4096, m_page_offset := 16, m_current_page := 1048576, m_last := 0 },
          { headers := [(1048576, { next_allocation := 0, num_pages := 1 })],
            syscalls := [Syscall.munmap 1048576 4096, Syscall.mmap 4096 1048576] }) ∧
      is_mapped [Syscall.munmap 1048576 4096, Syscall.mmap 4096 1048576] 1048576 = false ∧
      alloc 16
          { m_page_size := 4096, m_page_offset := 16, m_current_page := 1048576, m_last := 0 }
          { headers := [(1048576, { next_allocation := 0, num_pages := 1 })],
            syscalls := [Syscall.munmap 1048576 4096, Syscall.mmap 4096 1048576] } 0 mm =
        { ptr := 1048592,
          self :=
            { m_page_size := 4096, m_page_offset := 16, m_current_page := 1048576,
              m_last := 0 },
          world :=
            { headers := [(1048576, { next_allocation := 0, num_pages := 1 })],
              syscalls := [Syscall.munmap 1048576 4096, Syscall.mmap 4096 1048576] } } ∧
      is_mapped [Syscall.munmap 1048576 4096, Syscall.mmap 4096 1048576] 1048592 = false ∧
      is_mapped [Syscall.mmap 4096 1048576] 1048592 = true := by
  refine ⟨by decide, by decide, ?_, by decide, by decide⟩
  have h1 : wsub 4096 16 ≥ 0 := Nat.zero_le _
  have h2 : wadd 1048576 16 = 1048592 := by decide
  have h3 : wadd 16 0 = 16 := by decide
  simp [alloc, alloc_body, alloc_fast, h2, h3]

/-! ## The spare tail and later requests -/

/-- C5, the code at a request that follows a mapping: a zero-byte request on a
fresh allocator (page size 4096, 16-byte headers, region mapped at `1048576`)
returns `1048592` and leaves offset `16 = (0 + 16) mod 4096` and current page
`1048576`, the last page of the region, with
`m_current_page + m_page_offset` equal to the returned pointer plus the byte
count; yet every later request of `n + 1` bytes returns null and leaves the
allocator and the world as they were, so the spare tail of 4080 bytes serves no
later request of nonzero size, where lines 53 to 60 would serve a request of 8
bytes at `1048592`. -/
theorem alloc_spare_tail_serves_no_later_request (n mm : Nat) :
    alloc 16 (SimplePageAllocator.new 4096) World.empty 0 1048576 =
        { ptr := 1048592,
          self :=
            { m_page_size := 4096, m_page_offset := 16, m_current_page := 1048576,
              m_last := 1048576 },
          world :=
            { headers := [(1048576, { next_allocation := 0, num_pages := 1 })],
              syscalls := [Syscall.mmap 4096 1048576] } } ∧
      (alloc 16 (SimplePageAllocator.new 4096) World.empty 0 1048576).self.m_page_offset =
        (0 + 16) % 4096 ∧
      (alloc 16 (SimplePageAllocator.new 4096) World.empty 0 1048576).self.m_current_page +
          (alloc 16 (SimplePageAllocator.new 4096) World.empty 0 1048576).self.m_page_offset =
        (alloc 16 (SimplePageAllocator.new 4096) World.empty 0 1048576).ptr + 0 ∧
      alloc 16
          { m_page_size := 4096, m_page_offset := 16, m_current_page := 1048576,
            m_last := 1048576 }
          { headers := [(1048576, { next_allocation := 0, num_pages := 1 })],
            syscalls := [Syscall.mmap 4096 1048576] } (n + 1) mm =
        { ptr := 0,
          self :=
            { m_page_size := 4096, m_page_offset := 16, m_current_page := 1048576,
              m_last := 1048576 },
          world :=
            { headers := [(1048576, { next_allocation := 0, num_pages := 1 })],
              syscalls := [Syscall.mmap 4096 1048576] } } ∧
      wsub 4096 16 ≥ 8 ∧
      (alloc_fast
          { m_page_size := 4096, m_page_offset := 16, m_current_page := 1048576,
            m_last := 1048576 }
          { headers := [(1048576, { next_allocation := 0, num_pages := 1 })],
            syscalls := [Syscall.mmap 4096 1048576] } 8).ptr = 1048592 := by
  refine ⟨by decide, by decide, by decide, by simp [alloc], by decide, by decide⟩

end sentry
